import Mathlib

/-!
Verification of the Pintos early-boot sequencer (threads/init.c).

The definitions below are a shallow embedding of the functions of
threads/init.c: the command-line reader, the option parser, the action
dispatcher, the kernel page-table construction loop, and the ordered list
of subsystem set-up calls made by main.  Machine integers are modelled as
Nat; fatal PANIC paths are modelled by an error result; external
collaborators (the page-table walk primitive, the loader constants) are
modelled from the spec where their code is not part of this slice.
-/

deriving instance DecidableEq for Except

namespace PintosInit

/-- Fatal boot errors.  Each constructor corresponds to one PANIC call in
threads/init.c (or, for usagePowerOff, the non-returning usage/power-off
path of the -h option).  The insufficientArgs count field carries the
number printed by the message, which in the source is a.argc - 1. -/
inductive Fatal where
  | overflow
  | unknownOption (name : String)
  | unknownAction (name : String)
  | insufficientArgs (name : String) (count : Nat)
  | nullValue (name : String)
  | usagePowerOff
  deriving DecidableEq, Repr

/-- Modelled from the spec: the loader argument area has a fixed length
(the loader header constant LOADER_ARGS_LEN, 128 bytes); the source
declares the static argv array with LOADER_ARGS_LEN / 2 + 1 slots. -/
def LOADER_ARGS_LEN : Nat := 128

/-- Byte-bounded string length: the number of bytes before the first zero
byte starting at offset p, never exceeding maxlen.  This embeds the C
strnlen(p, maxlen) applied to the loader argument area, with mem giving
the byte at each offset from the start of the area. -/
def strnlen (mem : Nat → Nat) : Nat → Nat → Nat
  | _, 0 => 0
  | p, maxlen + 1 => if mem p = 0 then 0 else strnlen mem (p + 1) maxlen + 1

/-- One record of what read_command_line did: the list of stores into the
static argv array (slot index, stored token offset, with none standing
for the trailing NULL sentinel), plus whether a PANIC fired. -/
structure RCLResult where
  writes : List (Nat × Option Nat)
  panic : Option Fatal
  deriving DecidableEq, Repr

/-- The loop of read_command_line.  n counts the remaining iterations
(argc - i in the source), i is the argv slot index, p the current byte
offset into the argument area (the source uses a pointer; offsets from
the area start are equivalent).  On loop exit the source stores the NULL
sentinel at argv[argc] with no preceding bound check. -/
def rclLoop (mem : Nat → Nat) : Nat → Nat → Nat → RCLResult
  | 0, i, _ => ⟨[(i, none)], none⟩
  | n + 1, i, p =>
    if LOADER_ARGS_LEN ≤ p then ⟨[], some .overflow⟩
    else
      let r := rclLoop mem n (i + 1) (p + strnlen mem p (LOADER_ARGS_LEN - p) + 1)
      ⟨(i, some p) :: r.writes, r.panic⟩

/-- read_command_line: reads the declared token count argc and walks the
argument area, recording each argv store. -/
def read_command_line (mem : Nat → Nat) (argc : Nat) : RCLResult :=
  rclLoop mem argc 0 0

/-- The boot configuration record mutated by parse_options (the globals
power_off_when_done, format_filesys, the random seed handed to
random_init, thread_mlfqs, user_page_limit, thread_tests). -/
structure BootConfig where
  power_off_when_done : Bool := false
  format_filesys : Bool := false
  random_seed : Option Int := none
  thread_mlfqs : Bool := false
  user_page_limit : Option Int := none
  thread_tests : Bool := false
  deriving DecidableEq, Repr

/-- The name part of an option token: strtok_r with delimiter set "=" on a
token whose first character is the option marker returns the maximal
run of characters before the first equals sign. -/
def optName (tok : String) : String :=
  String.mk (tok.data.takeWhile (fun c => c ≠ '='))

/-- The value part of an option token: the second strtok_r call with an
empty delimiter set returns the remainder after the first equals sign,
or NULL when the token has no equals sign or nothing follows it. -/
def optValue (tok : String) : Option String :=
  match tok.data.dropWhile (fun c => c ≠ '=') with
  | [] => none
  | _ :: rest => if rest.isEmpty then none else some (String.mk rest)

/-- Modelled from the spec: best-effort numeric conversion (the C atoi of
the kernel library, whose source is outside this slice): leading digits
accumulate, anything else ends the number; non-numeric input yields
zero. -/
def atoiCore : List Char → Int → Int
  | [], acc => acc
  | c :: cs, acc =>
    if '0' ≤ c ∧ c ≤ '9' then
      atoiCore cs (acc * 10 + ((c.toNat - '0'.toNat : Nat) : Int))
    else acc

/-- Modelled from the spec: C atoi with an optional leading sign. -/
def atoi (s : String) : Int :=
  match s.data with
  | '-' :: cs => - atoiCore cs 0
  | '+' :: cs => atoiCore cs 0
  | cs => atoiCore cs 0

/-- C atoi applied to a possibly-NULL pointer: the source passes the raw
strtok_r result to atoi, so an absent value reaches the conversion with
a null pointer; that branch is the error case here. -/
def atoiNull : Option String → Except Unit Int
  | none => .error ()
  | some s => .ok (atoi s)

/-- The option names recognized by the if-chain of parse_options, as a
function of the build flags (USERPROG, FILESYS). -/
def optionRegistry (userprog filesys : Bool) : List String :=
  ["-h", "-q"] ++ (if filesys then ["-f"] else []) ++ ["-rs", "-mlfqs"]
    ++ (if userprog then ["-ul", "-threads-tests"] else [])

/-- parse_options: consumes leading tokens that start with the option
marker, splitting each into name and optional value and updating the
configuration; returns the configuration and the remaining tokens
(the first non-option token onward). -/
def parse_options (userprog filesys : Bool) :
    BootConfig → List String → Except Fatal (BootConfig × List String)
  | cfg, [] => .ok (cfg, [])
  | cfg, tok :: rest =>
    if tok.data.head? = some '-' then
      let name := optName tok
      let value := optValue tok
      if name = "-h" then .error .usagePowerOff
      else if name = "-q" then
        parse_options userprog filesys { cfg with power_off_when_done := true } rest
      else if filesys ∧ name = "-f" then
        parse_options userprog filesys { cfg with format_filesys := true } rest
      else if name = "-rs" then
        match atoiNull value with
        | .ok n => parse_options userprog filesys { cfg with random_seed := some n } rest
        | .error _ => .error (.nullValue name)
      else if name = "-mlfqs" then
        parse_options userprog filesys { cfg with thread_mlfqs := true } rest
      else if userprog ∧ name = "-ul" then
        match atoiNull value with
        | .ok n => parse_options userprog filesys { cfg with user_page_limit := some n } rest
        | .error _ => .error (.nullValue name)
      else if userprog ∧ name = "-threads-tests" then
        parse_options userprog filesys { cfg with thread_tests := true } rest
      else .error (.unknownOption name)
    else .ok (cfg, tok :: rest)

/-- One entry of the static action table of run_actions: the action name
and its declared argc (number of argv slots consumed, action name
included). -/
structure Action where
  name : String
  argc : Nat
  deriving DecidableEq, Repr

/-- The static action table: run always, and the five filesystem actions
when FILESYS is configured in.  The NULL terminator of the C array is
the end of the list. -/
def actionTable (filesys : Bool) : List Action :=
  [⟨"run", 2⟩] ++
    (if filesys then [⟨"ls", 1⟩, ⟨"cat", 2⟩, ⟨"rm", 2⟩, ⟨"put", 2⟩, ⟨"get", 2⟩]
     else [])

/-- The dispatch loop of run_actions, with explicit fuel (the source loop
has no fuel; the sufficiency of fuel = length of argv is proved below,
which is the termination argument).  Each completed iteration records
the invoked action name together with the argv slice from the action
name through its declared arguments, then advances the cursor by the
declared argc.  Results: none is fuel exhaustion, some (.error e) a
PANIC, some (.ok trace) normal completion at the NULL sentinel. -/
def runActionsF (filesys : Bool) :
    Nat → List String → Option (Except Fatal (List (String × List String)))
  | _, [] => some (.ok [])
  | 0, _ :: _ => none
  | fuel + 1, tok :: rest =>
    match (actionTable filesys).find? (fun a => a.name == tok) with
    | none => some (.error (.unknownAction tok))
    | some a =>
      if (tok :: rest).length < a.argc then
        some (.error (.insufficientArgs tok (a.argc - 1)))
      else
        match runActionsF filesys fuel ((tok :: rest).drop a.argc) with
        | none => none
        | some (.error e) => some (.error e)
        | some (.ok tr) => some (.ok ((tok, (tok :: rest).take a.argc) :: tr))

/-- run_actions: the dispatch loop run with fuel equal to the token count,
which always suffices because every table entry has argc at least 1. -/
def run_actions (filesys : Bool) (argv : List String) :
    Option (Except Fatal (List (String × List String))) :=
  runActionsF filesys argv.length argv

/-- Page size of the architecture (PGSIZE of the paging headers, outside
this slice). -/
def PGSIZE : Nat := 4096

/-- Present bit of a page-table entry (pte.h, outside this slice). -/
def PTE_P : Nat := 1

/-- Writable bit of a page-table entry (pte.h, outside this slice). -/
def PTE_W : Nat := 2

/-- Modelled from the spec: the fixed offset of the kernel virtual mapping
(LOADER_KERN_BASE of the loader header, outside this slice). -/
def LOADER_KERN_BASE : Nat := 0x8004000000

/-- Modelled from the spec: ptov, the fixed function carrying a physical
address to its kernel virtual address under the flat boot mapping. -/
def ptov (pa : Nat) : Nat := LOADER_KERN_BASE + pa

/-- The 32-bit complement of PTE_W: perm in the source is a C int, so the
expression perm AND NOT PTE_W masks with this constant. -/
def NOT_PTE_W32 : Nat := 4294967293

/-- The permission computation of the paging_init loop body: perm starts
as PTE_P or-ed with PTE_W, and W is cleared (a C int AND with the
complement of PTE_W) when the virtual address falls inside the kernel
code region bounded by kstart and kend. -/
def pagingPerm (kstart kend va : Nat) : Nat :=
  if kstart ≤ va ∧ va < kend then (PTE_P ||| PTE_W) &&& NOT_PTE_W32
  else PTE_P ||| PTE_W

/-- The loop of paging_init.  The page table built by repeated pml4e_walk
calls is abstracted to the map from virtual address to leaf entry that
those calls produce; walk_ok is the spec-modelled walk primitive with
creation enabled, telling for each virtual address whether the walk
returns a leaf reference (true) or an absent result because an
intermediate table could not be allocated (false).  When the walk
fails the source stores nothing for that page and the loop continues;
kstart and kend are the link-time addresses start and _end_kernel_text
bounding the kernel code region. -/
def pagingLoop (walk_ok : Nat → Bool) (kstart kend mem_end : Nat)
    (pa : Nat) (pt : Nat → Option Nat) : Nat → Option Nat :=
  if pa < mem_end then
    let va := ptov pa
    let perm := pagingPerm kstart kend va
    let newpt :=
      if walk_ok va then fun x => if x = va then some (pa ||| perm) else pt x
      else pt
    pagingLoop walk_ok kstart kend mem_end (pa + PGSIZE) newpt
  else pt
termination_by mem_end - pa
decreasing_by simp [PGSIZE]; omega

/-- paging_init: builds the flat kernel mapping for physical addresses in
the range below mem_end.  The source contains no PANIC in this
function, so the result is always ok; the Except shape records that a
halt, had the source requested one, would be observable here. -/
def paging_init (walk_ok : Nat → Bool) (kstart kend mem_end : Nat) :
    Except Fatal (Nat → Option Nat) :=
  .ok (pagingLoop walk_ok kstart kend mem_end 0 (fun _ => none))

/-- The walk oracle of the nominal run: every walk with creation enabled
succeeds (no intermediate-table allocation fails). -/
def walkAlways : Nat → Bool := fun _ => true

/-- A walk oracle failing exactly at the virtual address of physical page
zero, used to exhibit the behaviour of paging_init on a failed walk. -/
def walkFailAtZero : Nat → Bool := fun va => !(va == ptov 0)

/-- The sequence of calls made by main, in source order, as a function of
the build flags (USERPROG, FILESYS, VM).  After run_actions, main
powers off when requested and otherwise exits its thread; those two
tail calls follow action dispatch and are not part of the set-up
sequence the claims are about. -/
def mainCalls (userprog filesys vm : Bool) : List String :=
  ["bss_init", "read_command_line", "parse_options",
   "thread_init", "console_init", "palloc_init", "malloc_init", "paging_init"]
  ++ (if userprog then ["tss_init", "gdt_init"] else [])
  ++ ["intr_init", "timer_init", "kbd_init", "input_init"]
  ++ (if userprog then ["exception_init", "syscall_init"] else [])
  ++ ["thread_start", "serial_init_queue", "timer_calibrate"]
  ++ (if filesys then ["disk_init", "filesys_init"] else [])
  ++ (if vm then ["vm_init"] else [])
  ++ ["run_actions"]

/-- A byte area has no empty tokens when the first byte is nonzero and no
zero byte is immediately followed by another zero byte: then every
token start read by the command-line loop carries a nonzero byte. -/
def memNoEmptyTokens (mem : Nat → Nat) : Prop :=
  mem 0 ≠ 0 ∧ ∀ q, mem q = 0 → mem (q + 1) ≠ 0

/-- A concrete argument area of alternating nonzero and zero bytes: every
token is the single byte 1, so no token is empty. -/
def memAlt : Nat → Nat := fun q => if q % 2 = 0 then 1 else 0

/-- Follows the words of the spec (SubsystemInitializer contract):
synchronization and thread set-up, then console, then the page
allocator, then the dynamic-allocation arena, then the address-space
builder, then (when process isolation is configured) task-state and
segment-descriptor structures, then the interrupt-vector table, timer,
keyboard, input queue, then (when configured) exception and syscall
entry points, then scheduler start with interrupts enabled, then the
serial queue, then timer calibration, then (when configured) disk and
filesystem, then (when configured) the demand-paging subsystem, with
action dispatch only after all of these. -/
def specInitSequence (userprog filesys vm : Bool) : List String :=
  ["thread_init", "console_init", "palloc_init", "malloc_init", "paging_init"]
  ++ (if userprog then ["tss_init", "gdt_init"] else [])
  ++ ["intr_init", "timer_init", "kbd_init", "input_init"]
  ++ (if userprog then ["exception_init", "syscall_init"] else [])
  ++ ["thread_start", "serial_init_queue", "timer_calibrate"]
  ++ (if filesys then ["disk_init", "filesys_init"] else [])
  ++ (if vm then ["vm_init"] else [])
  ++ ["run_actions"]

/-! Helper lemmas shared by the claim theorems. -/

/-- Every entry of the static action table declares argc at least 1. -/
theorem actionTable_argc_pos (f : Bool) : ∀ a ∈ actionTable f, 1 ≤ a.argc := by
  cases f <;> decide

/-- Fuel sufficiency for the dispatch loop: fuel at least the token count
is never exhausted, because every completed iteration consumes at least
one token (argc of the matched entry is at least 1). -/
theorem runActionsF_isSome (f : Bool) :
    ∀ (fuel : Nat) (argv : List String), argv.length ≤ fuel →
      (runActionsF f fuel argv).isSome = true := by
  intro fuel
  induction fuel with
  | zero =>
    intro argv h
    match argv with
    | [] => rfl
    | t :: r => simp at h
  | succ n ih =>
    intro argv h
    match argv with
    | [] => rfl
    | tok :: rest =>
      rw [runActionsF]
      split
      · rfl
      · rename_i a hfind
        have hargc : 1 ≤ a.argc := actionTable_argc_pos f a (List.mem_of_find?_eq_some hfind)
        split
        · rfl
        · rename_i hlen
          have hle : ((tok :: rest).drop a.argc).length ≤ n := by
            simp only [List.length_drop, List.length_cons]
            simp only [List.length_cons] at h
            omega
          have hrec := ih _ hle
          split
          · rename_i hr
            rw [hr] at hrec
            simp at hrec
          · rfl
          · rfl

/-- strnlen never exceeds its bound. -/
theorem strnlen_le (mem : Nat → Nat) : ∀ (maxlen p : Nat), strnlen mem p maxlen ≤ maxlen := by
  intro maxlen
  induction maxlen with
  | zero => intro p; simp [strnlen]
  | succ n ih =>
    intro p
    simp only [strnlen]
    split
    · omega
    · have := ih (p + 1); omega

/-- strnlen of a token starting with a nonzero byte is at least 1. -/
theorem strnlen_pos (mem : Nat → Nat) (p : Nat) (maxlen : Nat)
    (h0 : mem p ≠ 0) (hm : 1 ≤ maxlen) : 1 ≤ strnlen mem p maxlen := by
  match maxlen, hm with
  | n + 1, _ =>
    simp only [strnlen]
    rw [if_neg h0]
    omega

/-- When strnlen stops short of its bound, it stopped on a zero byte. -/
theorem strnlen_stop (mem : Nat → Nat) :
    ∀ (maxlen p : Nat), strnlen mem p maxlen < maxlen →
      mem (p + strnlen mem p maxlen) = 0 := by
  intro maxlen
  induction maxlen with
  | zero => intro p h; omega
  | succ n ih =>
    intro p h
    by_cases h0 : mem p = 0
    · have hz : strnlen mem p (n + 1) = 0 := by simp [strnlen, h0]
      rw [hz, Nat.add_zero]
      exact h0
    · simp only [strnlen, if_neg h0] at h ⊢
      have hrec := ih (p + 1) (by omega)
      have harg : p + (strnlen mem (p + 1) n + 1) = (p + 1) + strnlen mem (p + 1) n := by omega
      rw [harg]
      exact hrec

/-- When more iterations remain than bytes in the area, the loop panics:
each iteration advances the offset by at least one, so the offset check
eventually fires. -/
theorem rclLoop_overflow (mem : Nat → Nat) :
    ∀ (n i p : Nat), i ≤ p → i ≤ LOADER_ARGS_LEN → LOADER_ARGS_LEN < i + n →
      (rclLoop mem n i p).panic = some .overflow := by
  intro n
  induction n with
  | zero =>
    intro i p h1 h2 h3
    exact absurd h3 (by omega)
  | succ m ih =>
    intro i p h1 h2 h3
    simp only [rclLoop]
    by_cases hp : LOADER_ARGS_LEN ≤ p
    · rw [if_pos hp]
    · rw [if_neg hp]
      simp only [LOADER_ARGS_LEN] at hp
      exact ih (i + 1) _ (by have := strnlen_le mem (LOADER_ARGS_LEN - p) p; omega)
        (by simp only [LOADER_ARGS_LEN]; omega) (by omega)

/-- Every argv slot index the loop writes is at most LOADER_ARGS_LEN: a
token store happens only below the end-of-area offset, and the
sentinel index can be at most one past the last token index. -/
theorem rclLoop_writes_le (mem : Nat → Nat) :
    ∀ (n i p : Nat), i ≤ p → i ≤ LOADER_ARGS_LEN →
      ∀ w ∈ (rclLoop mem n i p).writes, w.1 ≤ LOADER_ARGS_LEN := by
  intro n
  induction n with
  | zero =>
    intro i p h1 h2 w hw
    simp only [rclLoop, List.mem_singleton] at hw
    subst hw; exact h2
  | succ m ih =>
    intro i p h1 h2 w hw
    simp only [rclLoop] at hw
    by_cases hp : LOADER_ARGS_LEN ≤ p
    · rw [if_pos hp] at hw; simp at hw
    · rw [if_neg hp] at hw
      simp only [List.mem_cons] at hw
      rcases hw with rfl | hw
      · exact h2
      · simp only [LOADER_ARGS_LEN] at hp
        exact ih (i + 1) _ (by omega) (by simp only [LOADER_ARGS_LEN]; omega) w hw

/-- Under the no-empty-token side condition every iteration advances the
offset by at least two, so every slot index written stays below the
argv capacity LOADER_ARGS_LEN / 2 + 1. -/
theorem rclLoop_writes_lt (mem : Nat → Nat)
    (hchain : ∀ q, mem q = 0 → mem (q + 1) ≠ 0) :
    ∀ (n i p : Nat), 2 * i ≤ p → p ≤ LOADER_ARGS_LEN + 1 →
      (mem p ≠ 0 ∨ LOADER_ARGS_LEN ≤ p) →
      ∀ w ∈ (rclLoop mem n i p).writes, w.1 < LOADER_ARGS_LEN / 2 + 1 := by
  intro n
  induction n with
  | zero =>
    intro i p h1 h2 h3 w hw
    simp only [rclLoop, List.mem_singleton] at hw
    subst hw
    simp only [LOADER_ARGS_LEN] at h1 h2 ⊢
    omega
  | succ m ih =>
    intro i p h1 h2 h3 w hw
    simp only [rclLoop] at hw
    by_cases hp : LOADER_ARGS_LEN ≤ p
    · rw [if_pos hp] at hw; simp at hw
    · rw [if_neg hp] at hw
      have hmem : mem p ≠ 0 := by
        rcases h3 with h | h
        · exact h
        · exact absurd h hp
      simp only [LOADER_ARGS_LEN] at hp
      have hlen1 : 1 ≤ strnlen mem p (LOADER_ARGS_LEN - p) :=
        strnlen_pos mem p _ hmem (by simp only [LOADER_ARGS_LEN]; omega)
      have hlen2 : strnlen mem p (LOADER_ARGS_LEN - p) ≤ LOADER_ARGS_LEN - p :=
        strnlen_le mem _ p
      simp only [List.mem_cons] at hw
      rcases hw with rfl | hw
      · simp only [LOADER_ARGS_LEN] at h1 ⊢
        omega
      · refine ih (i + 1) (p + strnlen mem p (LOADER_ARGS_LEN - p) + 1) ?_ ?_ ?_ w hw
        · omega
        · simp only [LOADER_ARGS_LEN] at hlen2 ⊢
          omega
        · by_cases hfull : strnlen mem p (LOADER_ARGS_LEN - p) < LOADER_ARGS_LEN - p
          · left
            have hz := strnlen_stop mem (LOADER_ARGS_LEN - p) p hfull
            exact hchain _ hz
          · right
            simp only [LOADER_ARGS_LEN] at hfull hlen2 ⊢
            omega

/-- The alternating area has no empty tokens. -/
theorem memAlt_noEmpty : memNoEmptyTokens memAlt := by
  constructor
  · decide
  · intro q hq
    simp only [memAlt] at hq ⊢
    split at hq
    · simp at hq
    · rename_i h
      rw [if_pos (by omega)]
      decide

/-- Or-ing page-aligned bits with a small permission field is addition. -/
theorem lor_align (a b : Nat) (ha : a % 4096 = 0) (hb : b < 4096) : a ||| b = a + b := by
  apply Nat.eq_of_testBit_eq
  intro i
  rw [Nat.testBit_or]
  have h2 : (2 : Nat) ^ 12 = 4096 := by norm_num
  by_cases hi : i < 12
  · have ha' : a.testBit i = false := by
      have h := Nat.testBit_mod_two_pow a 12 i
      rw [h2, ha] at h
      simp [hi] at h
      exact h
    have hab : (a + b).testBit i = b.testBit i := by
      have h := Nat.testBit_mod_two_pow (a + b) 12 i
      have hm : (a + b) % 2 ^ 12 = b := by rw [h2]; omega
      rw [hm] at h
      simp [hi] at h
      exact h.symm
    rw [ha', hab]
    simp
  · have hge : 12 ≤ i := by omega
    have hb' : b.testBit i = false :=
      Nat.testBit_lt_two_pow (lt_of_lt_of_le hb (by
        calc (4096 : Nat) = 2 ^ 12 := by norm_num
          _ ≤ 2 ^ i := Nat.pow_le_pow_right (by norm_num) hge))
    have key : (a + b) / 2 ^ i = a / 2 ^ i := by
      obtain ⟨j, rfl⟩ : ∃ j, i = 12 + j := ⟨i - 12, by omega⟩
      rw [pow_add]
      rw [← Nat.div_div_eq_div_mul, ← Nat.div_div_eq_div_mul]
      have hq : (a + b) / 2 ^ 12 = a / 2 ^ 12 := by rw [h2]; omega
      rw [hq]
    have hab : (a + b).testBit i = a.testBit i := by
      rw [Nat.testBit_to_div_mod, Nat.testBit_to_div_mod, key]
    rw [hb', hab]
    simp

/-- The paging loop never touches virtual addresses below the one of its
current physical address: all later stores go to strictly larger ones. -/
theorem pagingLoop_untouched (w : Nat → Bool) (ks ke me : Nat) :
    ∀ (k pa : Nat), me - pa ≤ k → ∀ (pt : Nat → Option Nat), ∀ x < ptov pa,
      pagingLoop w ks ke me pa pt x = pt x := by
  intro k
  induction k with
  | zero =>
    intro pa hk pt x hx
    rw [pagingLoop]
    rw [if_neg (by omega)]
  | succ n ih =>
    intro pa hk pt x hx
    rw [pagingLoop]
    by_cases h : pa < me
    · rw [if_pos h]
      have hx2 : x < ptov (pa + PGSIZE) := by
        simp only [ptov, PGSIZE] at hx ⊢
        omega
      rw [ih (pa + PGSIZE) (by simp only [PGSIZE]; omega) _ x hx2]
      by_cases hw : w (ptov pa) = true
      · rw [if_pos hw]
        rw [if_neg (by omega : ¬ x = ptov pa)]
      · rw [if_neg hw]
    · rw [if_neg h]

/-- What the paging loop leaves at the virtual address of an aligned
physical address in range: the entry of that page when its walk
succeeded, the incoming table value when the walk failed. -/
theorem pagingLoop_maps (w : Nat → Bool) (ks ke me : Nat) :
    ∀ (k pa0 : Nat), me - pa0 ≤ k → ∀ (pa : Nat), pa0 % PGSIZE = 0 → pa % PGSIZE = 0 →
      pa0 ≤ pa → pa < me → ∀ (pt : Nat → Option Nat),
      pagingLoop w ks ke me pa0 pt (ptov pa) =
        (if w (ptov pa) = true then some (pa ||| pagingPerm ks ke (ptov pa))
         else pt (ptov pa)) := by
  intro k
  induction k with
  | zero =>
    intro pa0 hk pa h0 hp hle hlt pt
    exact absurd hk (by omega)
  | succ n ih =>
    intro pa0 hk pa h0 hp hle hlt pt
    have h : pa0 < me := by omega
    rw [pagingLoop, if_pos h]
    by_cases heq : pa = pa0
    · subst heq
      rw [pagingLoop_untouched w ks ke me n (pa + PGSIZE) (by simp only [PGSIZE]; omega)
        _ (ptov pa) (by simp only [ptov, PGSIZE]; omega)]
      by_cases hw : w (ptov pa) = true
      · simp [hw]
      · simp [hw]
    · have hstep : pa0 + PGSIZE ≤ pa := by
        simp only [PGSIZE] at h0 hp ⊢
        omega
      rw [ih (pa0 + PGSIZE) (by simp only [PGSIZE]; omega) pa
        (by simp only [PGSIZE] at h0 ⊢; omega) hp hstep hlt _]
      by_cases hw : w (ptov pa) = true
      · rw [if_pos hw, if_pos hw]
      · rw [if_neg hw, if_neg hw]
        by_cases hw0 : w (ptov pa0) = true
        · rw [if_pos hw0]
          rw [if_neg (by simp only [ptov]; omega : ¬ ptov pa = ptov pa0)]
        · rw [if_neg hw0]

/-- The permission field is 1 inside the kernel code region (present,
read-only) and 3 outside it (present and writable). -/
theorem pagingPerm_val (ks ke va : Nat) :
    pagingPerm ks ke va = if ks ≤ va ∧ va < ke then 1 else 3 := by
  have e2 : PTE_P ||| PTE_W = 3 := by decide
  have e3 : (3 : Nat) &&& NOT_PTE_W32 = 1 := by decide
  simp only [pagingPerm, e2, e3]

/-! The claim theorems. -/

/-- C1: after paging_init runs on mem_end (with every walk succeeding),
every page-aligned physical address pa below mem_end is mapped at
virtual address ptov pa to an entry whose present bit is set, whose
writable bit is set exactly when ptov pa lies outside the kernel code
region, and whose address field is pa. -/
theorem paging_init_maps (ks ke me pa : Nat) (hlt : pa < me) (hal : pa % PGSIZE = 0) :
    ∃ pt e, paging_init walkAlways ks ke me = .ok pt ∧ pt (ptov pa) = some e ∧
      e % 2 = 1 ∧
      (e / 2 % 2 = 1 ↔ ¬ (ks ≤ ptov pa ∧ ptov pa < ke)) ∧
      e / PGSIZE * PGSIZE = pa := by
  refine ⟨_, pa ||| pagingPerm ks ke (ptov pa), rfl, ?_, ?_⟩
  · have h := pagingLoop_maps walkAlways ks ke me me 0 (by omega) pa (by simp [PGSIZE]) hal
      (by omega) hlt (fun _ => none)
    rw [h]
    simp [walkAlways]
  · have hal4 : pa % 4096 = 0 := by simpa [PGSIZE] using hal
    rw [pagingPerm_val]
    by_cases h : ks ≤ ptov pa ∧ ptov pa < ke
    · rw [if_pos h, lor_align pa 1 hal4 (by norm_num)]
      have h1 : (pa + 1) % 2 = 1 := by omega
      have h2 : (pa + 1) / 2 % 2 = 0 := by omega
      have h3 : (pa + 1) / PGSIZE * PGSIZE = pa := by simp only [PGSIZE]; omega
      simp [h1, h2, h3, h]
    · rw [if_neg h, lor_align pa 3 hal4 (by norm_num)]
      have h1 : (pa + 3) % 2 = 1 := by omega
      have h2 : (pa + 3) / 2 % 2 = 1 := by omega
      have h3 : (pa + 3) / PGSIZE * PGSIZE = pa := by simp only [PGSIZE]; omega
      simp [h1, h2, h3, h]

/-- Witness for C1 at a concrete input: the second page of a two-page
range with the kernel code region covering exactly the first page. -/
theorem paging_init_maps_witness :
    PGSIZE < 2 * PGSIZE ∧ PGSIZE % PGSIZE = 0 ∧
    (∃ pt e, paging_init walkAlways (ptov 0) (ptov PGSIZE) (2 * PGSIZE) = .ok pt ∧
      pt (ptov PGSIZE) = some e ∧
      e % 2 = 1 ∧
      (e / 2 % 2 = 1 ↔ ¬ (ptov 0 ≤ ptov PGSIZE ∧ ptov PGSIZE < ptov PGSIZE)) ∧
      e / PGSIZE * PGSIZE = PGSIZE) :=
  ⟨by decide, by decide,
    paging_init_maps (ptov 0) (ptov PGSIZE) (2 * PGSIZE) PGSIZE (by decide) (by decide)⟩

/-- C2 counterexample: with a walk that fails (cannot allocate an
intermediate table) at the virtual address of physical page 0 inside a
two-page range, paging_init does not halt: it returns normally, leaves
that page unmapped, and continues to map the following page. -/
theorem paging_init_no_halt_cx :
    walkFailAtZero (ptov 0) = false ∧
    ∃ pt, paging_init walkFailAtZero 0 0 (2 * PGSIZE) = .ok pt ∧
      pt (ptov 0) = none ∧ pt (ptov PGSIZE) = some (PGSIZE ||| (PTE_P ||| PTE_W)) := by
  refine ⟨by decide, _, rfl, ?_, ?_⟩
  · have h := pagingLoop_maps walkFailAtZero 0 0 (2 * PGSIZE) (2 * PGSIZE) 0 (by omega) 0
      (by simp [PGSIZE]) (by simp [PGSIZE]) (by omega) (by simp [PGSIZE]) (fun _ => none)
    rw [h]
    simp [walkFailAtZero]
  · have h := pagingLoop_maps walkFailAtZero 0 0 (2 * PGSIZE) (2 * PGSIZE) 0 (by omega) PGSIZE
      (by simp [PGSIZE]) (by simp [PGSIZE]) (by omega) (by simp [PGSIZE]) (fun _ => none)
    rw [h]
    have hz : walkFailAtZero (ptov PGSIZE) = true := by decide
    rw [if_pos hz]
    have hp : pagingPerm 0 0 (ptov PGSIZE) = PTE_P ||| PTE_W := by
      simp [pagingPerm]
    rw [hp]

/-- C2 amended: when the walk primitive fails to return a leaf reference
for a page, paging_init does not halt; it leaves that page unmapped and
continues mapping, storing the usual entry for every page whose walk
succeeds. -/
theorem paging_init_walk_fail_skips (w : Nat → Bool) (ks ke me pa : Nat)
    (hlt : pa < me) (hal : pa % PGSIZE = 0) :
    ∃ pt, paging_init w ks ke me = .ok pt ∧
      (w (ptov pa) = false → pt (ptov pa) = none) ∧
      (w (ptov pa) = true → pt (ptov pa) = some (pa ||| pagingPerm ks ke (ptov pa))) := by
  have h := pagingLoop_maps w ks ke me me 0 (by omega) pa (by simp [PGSIZE]) hal
    (by omega) hlt (fun _ => none)
  refine ⟨_, rfl, ?_, ?_⟩ <;> intro hw <;> rw [h] <;> simp [hw]

/-- Witness for the amended C2 at a concrete input: physical page 0 of a
two-page range under the walk that fails at its virtual address. -/
theorem paging_init_walk_fail_skips_witness :
    (0 : Nat) < 2 * PGSIZE ∧ (0 : Nat) % PGSIZE = 0 ∧
    (∃ pt, paging_init walkFailAtZero 0 0 (2 * PGSIZE) = .ok pt ∧
      (walkFailAtZero (ptov 0) = false → pt (ptov 0) = none) ∧
      (walkFailAtZero (ptov 0) = true →
        pt (ptov 0) = some (0 ||| pagingPerm 0 0 (ptov 0)))) :=
  ⟨by decide, by decide,
    paging_init_walk_fail_skips walkFailAtZero 0 0 (2 * PGSIZE) 0 (by decide) (by decide)⟩

/-- C3 counterexample: with 66 declared tokens over an all-zero argument
area (66 empty tokens), read_command_line panics nowhere and stores a
token pointer at argv slot 65, which is outside the static array of
LOADER_ARGS_LEN / 2 + 1 = 65 slots, so an out-of-bounds argv store
happens with no overflow check firing. -/
theorem read_command_line_oob_cx :
    (read_command_line (fun _ => 0) 66).panic = none ∧
    ((65 : Nat), some (65 : Nat)) ∈ (read_command_line (fun _ => 0) 66).writes ∧
    LOADER_ARGS_LEN / 2 + 1 ≤ 65 := by
  decide

/-- C3 amended: a declared token count whose tokens would require reading
past the end of the fixed range makes read_command_line halt with the
command-line-overflow error, and every argv slot index written is at
most LOADER_ARGS_LEN; the overflow check alone does not keep indices
inside the LOADER_ARGS_LEN / 2 + 1 argv slots (empty tokens can
overrun, as the counterexample shows), but when no token is empty all
indices stay inside them. -/
theorem read_command_line_bounds (mem : Nat → Nat) (argc : Nat)
    (hne : memNoEmptyTokens mem) :
    (LOADER_ARGS_LEN < argc → (read_command_line mem argc).panic = some .overflow) ∧
    (∀ w ∈ (read_command_line mem argc).writes, w.1 ≤ LOADER_ARGS_LEN) ∧
    (∀ w ∈ (read_command_line mem argc).writes, w.1 < LOADER_ARGS_LEN / 2 + 1) := by
  refine ⟨?_, ?_, ?_⟩
  · intro hgt
    exact rclLoop_overflow mem argc 0 0 (by omega) (by simp [LOADER_ARGS_LEN]) (by omega)
  · exact rclLoop_writes_le mem argc 0 0 (by omega) (by simp [LOADER_ARGS_LEN])
  · exact rclLoop_writes_lt mem hne.2 argc 0 0 (by omega)
      (by simp [LOADER_ARGS_LEN]) (Or.inl hne.1)

/-- Witness for the amended C3 at a concrete input: 200 declared tokens
over the alternating area whose tokens are all nonempty. -/
theorem read_command_line_bounds_witness :
    memNoEmptyTokens memAlt ∧
    ((LOADER_ARGS_LEN < 200 → (read_command_line memAlt 200).panic = some .overflow) ∧
    (∀ w ∈ (read_command_line memAlt 200).writes, w.1 ≤ LOADER_ARGS_LEN) ∧
    (∀ w ∈ (read_command_line memAlt 200).writes, w.1 < LOADER_ARGS_LEN / 2 + 1)) :=
  ⟨memAlt_noEmpty, read_command_line_bounds memAlt 200 memAlt_noEmpty⟩

/-- C4 counterexample: on the token array with the single token cat (with
storage configured in), run_actions does not produce an
insufficient-arguments error stating required count 2: the message
carries the declared argc minus one. -/
theorem run_actions_cat_count_cx :
    ¬ run_actions true ["cat"] = some (.error (.insufficientArgs "cat" 2)) := by
  decide

/-- C4 amended: on the token array with the single token cat (with storage
configured in), run_actions halts with an insufficient-arguments error
naming cat and stating count 1, the declared argc 2 minus the action
name, which is the number printed by the source message. -/
theorem run_actions_cat_insufficient :
    run_actions true ["cat"] = some (.error (.insufficientArgs "cat" 1)) := by
  decide

/-- C5: on the token array run, prog, ls (with storage configured in),
run_actions first invokes the run handler on the slice from run (so its
argument is prog), consuming two tokens, then the ls handler on the
one-token slice ls, reaches the sentinel, and returns normally. -/
theorem run_actions_run_ls_trace :
    run_actions true ["run", "prog", "ls"] =
      some (.ok [("run", ["run", "prog"]), ("ls", ["ls"])]) := by
  decide

/-- C6: parse_options on the tokens -rs=77, -mlfqs, run, t (under any
build flags) sets the random seed to 77 and the mlfqs scheduler flag,
and returns the slice starting at run. -/
theorem parse_options_rs_mlfqs (u f : Bool) :
    parse_options u f {} ["-rs=77", "-mlfqs", "run", "t"] =
      .ok ({ random_seed := some 77, thread_mlfqs := true }, ["run", "t"]) := by
  cases u <;> cases f <;> decide

/-- Witness for C6 at concrete build flags. -/
theorem parse_options_rs_mlfqs_witness :
    parse_options true true {} ["-rs=77", "-mlfqs", "run", "t"] =
      .ok ({ random_seed := some 77, thread_mlfqs := true }, ["run", "t"]) :=
  parse_options_rs_mlfqs true true

/-- C7: a leading option token whose name part (before the first equals
sign) matches no entry of the option registry makes parse_options halt
with an unrecognized-option error naming that option. -/
theorem parse_options_unknown_option (u f : Bool) (cfg : BootConfig) (tok : String)
    (rest : List String) (hm : tok.data.head? = some '-')
    (hn : optName tok ∉ optionRegistry u f) :
    parse_options u f cfg (tok :: rest) = .error (.unknownOption (optName tok)) := by
  have h1 : ¬ optName tok = "-h" := fun h => hn (by simp [optionRegistry, h])
  have h2 : ¬ optName tok = "-q" := fun h => hn (by simp [optionRegistry, h])
  have h3 : ¬ (f = true ∧ optName tok = "-f") := by
    rintro ⟨hf, h⟩; exact hn (by simp [optionRegistry, hf, h])
  have h4 : ¬ optName tok = "-rs" := fun h => hn (by simp [optionRegistry, h])
  have h5 : ¬ optName tok = "-mlfqs" := fun h => hn (by simp [optionRegistry, h])
  have h6 : ¬ (u = true ∧ optName tok = "-ul") := by
    rintro ⟨hu, h⟩; exact hn (by simp [optionRegistry, hu, h])
  have h7 : ¬ (u = true ∧ optName tok = "-threads-tests") := by
    rintro ⟨hu, h⟩; exact hn (by simp [optionRegistry, hu, h])
  simp only [parse_options, hm, if_pos rfl]
  rw [if_neg h1, if_neg h2, if_neg h3, if_neg h4, if_neg h5, if_neg h6, if_neg h7]
  rw [if_pos trivial]

/-- Witness for C7 at the concrete token -bogus of the claim: the parse
halts naming -bogus. -/
theorem parse_options_unknown_option_witness :
    optName "-bogus" = "-bogus" ∧
    "-bogus".data.head? = some '-' ∧
    optName "-bogus" ∉ optionRegistry true true ∧
    parse_options true true {} ["-bogus"] = .error (.unknownOption (optName "-bogus")) :=
  ⟨by decide, by decide, by decide,
    parse_options_unknown_option true true {} "-bogus" [] (by decide) (by decide)⟩

/-- C8: main makes its set-up calls in exactly the order the spec gives
for the subsystem initializer, for every combination of the build
flags, with action dispatch after all of them; before that sequence
main only clears the BSS and reads and parses the command line. -/
theorem main_init_order :
    ∀ (userprog filesys vm : Bool),
      mainCalls userprog filesys vm =
        ["bss_init", "read_command_line", "parse_options"]
          ++ specInitSequence userprog filesys vm := by
  decide

/-- Witness for C8 at concrete build flags. -/
theorem main_init_order_witness :
    mainCalls true true true =
      ["bss_init", "read_command_line", "parse_options"]
        ++ specInitSequence true true true :=
  main_init_order true true true

/-- C9: a recognized integer-valued option given without an equals part
reaches the numeric conversion with an absent value: the value lookup
returns none, the conversion takes its error branch, and parse_options
ends in the null-value state for that option (it neither treats the
seed as zero nor reports an unknown option). -/
theorem parse_options_null_value (u f : Bool) (cfg : BootConfig) (rest : List String) :
    optValue "-rs" = none ∧ atoiNull (optValue "-rs") = .error () ∧
    parse_options u f cfg ("-rs" :: rest) = .error (.nullValue "-rs") ∧
    optValue "-ul" = none ∧
    parse_options true f cfg ("-ul" :: rest) = .error (.nullValue "-ul") := by
  refine ⟨by decide, by decide, ?_, by decide, ?_⟩
  · simp [parse_options, optName, optValue, atoiNull]
  · simp [parse_options, optName, optValue, atoiNull]

/-- Witness for C9 at concrete inputs. -/
theorem parse_options_null_value_witness :
    optValue "-rs" = none ∧ atoiNull (optValue "-rs") = .error () ∧
    parse_options true true {} ["-rs"] = .error (.nullValue "-rs") ∧
    optValue "-ul" = none ∧
    parse_options true true {} ["-ul"] = .error (.nullValue "-ul") :=
  parse_options_null_value true true {} []

/-- C10: the dispatch loop terminates on every finite token array: run
with fuel equal to the token count it never exhausts the fuel, because
every entry of the action registry declares argc at least 1 and each
iteration advances the cursor by the matched argc. -/
theorem run_actions_terminates (f : Bool) (argv : List String) :
    (run_actions f argv).isSome = true ∧ ∀ a ∈ actionTable f, 1 ≤ a.argc :=
  ⟨runActionsF_isSome f argv.length argv (Nat.le_refl _), actionTable_argc_pos f⟩

/-- Witness for C10 at a concrete token array. -/
theorem run_actions_terminates_witness :
    (run_actions true ["run", "prog", "ls"]).isSome = true ∧
      ∀ a ∈ actionTable true, 1 ≤ a.argc :=
  run_actions_terminates true ["run", "prog", "ls"]

end PintosInit
